import Mathlib

/-
  Verification of the OpenAPI introspection engine of `mcp-for-api-details`
  (src/index.ts) against its natural-language specification.

  The engine is embedded shallowly: every definition below is translated from
  the TypeScript source.  JavaScript strings are modelled as Lean `String`s;
  the string helpers used by the engine (lower-casing, splitting, substring
  search) are re-implemented structurally over `List Char` so that every
  definition evaluates inside the kernel.  JavaScript objects whose key order
  matters (the `paths` object, each path item, the `Map` used when grouping
  endpoints by tag) are modelled as ordered association lists, matching the
  insertion-order semantics of JavaScript objects and `Map`.
-/

/- ## String helpers (structural re-implementations of the JS built-ins) -/

/-- Lexicographic (code-point) non-strict comparison of character lists.
Models the default comparator of JavaScript `Array.prototype.sort` on
strings (which compares UTF-16 units; identical on the code points that
appear in practice). -/
def chLe : List Char → List Char → Bool
  | [], _ => true
  | _ :: _, [] => false
  | a :: as, b :: bs =>
    if a < b then true
    else if b < a then false
    else chLe as bs

/-- Strict lexicographic (code-point) comparison of character lists. -/
def chLt : List Char → List Char → Bool
  | _, [] => false
  | [], _ :: _ => true
  | a :: as, b :: bs =>
    if a < b then true
    else if b < a then false
    else chLt as bs

/-- Non-strict string order used to model JavaScript `sort()`. -/
def strLe (a b : String) : Prop := chLe a.data b.data = true

instance (a b : String) : Decidable (strLe a b) := by
  unfold strLe; infer_instance

/-- Splitting a character list at a separator character; models
`String.prototype.split` with a one-character separator. -/
def chSplitOn (sep : Char) : List Char → List (List Char)
  | [] => [[]]
  | c :: cs =>
    let r := chSplitOn sep cs
    if c = sep then [] :: r
    else
      match r with
      | [] => [[c]]
      | g :: gs => (c :: g) :: gs

/-- Models `ref.split('/')`. -/
def strSplitSlash (s : String) : List String :=
  (chSplitOn '/' s.data).map (fun g => String.mk g)

/-- Substring test on character lists; models `String.prototype.includes`. -/
def chContainsSub (s pat : List Char) : Bool :=
  s.tails.any (fun t => pat.isPrefixOf t)

/-- Models `s.includes(pat)` on strings. -/
def strIncludes (s pat : String) : Bool := chContainsSub s.data pat.data

/-- Models `String.prototype.toLowerCase` (ASCII, as all engine inputs that
are compared case-insensitively are ASCII method names and search text). -/
def strLower (s : String) : String := String.mk (s.data.map Char.toLower)

/-- Models `String.prototype.toUpperCase`. -/
def strUpper (s : String) : String := String.mk (s.data.map Char.toUpper)

/-- Models `Array.prototype.join(sep)` on an array of strings. -/
def strJoinSep (sep : String) : List String → String
  | [] => ""
  | [x] => x
  | x :: y :: xs => x ++ sep ++ strJoinSep sep (y :: xs)

/- ## The spec model (`src/types.ts` is not part of the snapshot).

Modelled from the spec: §3 DATA MODEL of the specification describes the
typed shape of an OpenAPI document (`SpecDocument`, `PathItem`, `Operation`,
`Parameter`, `Schema`, security requirement lists); the declarations below
follow that description, with JSON-valued schema nodes carried opaquely as a
JSON tree (the engine never inspects a schema, it only stores, resolves and
serializes it). -/

/-- A JSON value; used for schema nodes, which the engine treats opaquely.
JSON numbers are modelled as integers (no claim touches numeric schema
content). -/
inductive Json where
  | null
  | bool (b : Bool)
  | num (n : Int)
  | str (s : String)
  | arr (elems : List Json)
  | obj (fields : List (String × Json))

/-- JavaScript truthiness of a JSON value, used to model the `|| null` and
`if (!schema)` tests applied to looked-up schema nodes. -/
def Json.truthy : Json → Bool
  | .null => false
  | .bool b => b
  | .num n => n != 0
  | .str s => s != ""
  | .arr _ => true
  | .obj _ => true

/-- One security requirement object (mapping of scheme name to scopes).
Only the length of a security requirement list is ever inspected. -/
abbrev SecurityRequirement := List (String × List String)

/-- The eight HTTP methods known to the engine (the `methods` array at
src/index.ts:61). -/
inductive HttpMethod where
  | get | post | put | patch | delete | options | head | trace
deriving DecidableEq, Repr

/-- The fixed iteration order of the `methods` array in `extractEndpoints`
and `extractTags`. -/
def httpMethods : List HttpMethod :=
  [.get, .post, .put, .patch, .delete, .options, .head, .trace]

/-- The lower-case name of a method, i.e. the literal object key under which
an operation is stored in a path item. -/
def methodLowerName : HttpMethod → String
  | .get => "get"
  | .post => "post"
  | .put => "put"
  | .patch => "patch"
  | .delete => "delete"
  | .options => "options"
  | .head => "head"
  | .trace => "trace"

/-- `method.toUpperCase()` applied to the lower-case method key. -/
def methodUpperName : HttpMethod → String
  | .get => "GET"
  | .post => "POST"
  | .put => "PUT"
  | .patch => "PATCH"
  | .delete => "DELETE"
  | .options => "OPTIONS"
  | .head => "HEAD"
  | .trace => "TRACE"

/-- An operation parameter (name, location, required flag, description). -/
structure Parameter where
  name : String
  «in» : String
  required : Bool
  description : Option String
deriving Repr

/-- One media-type entry of a request/response `content` object; `schema`
may be absent. -/
structure MediaTypeObject where
  schema : Option Json

/-- A request body: required flag and ordered content map. -/
structure RequestBody where
  required : Bool
  content : List (String × MediaTypeObject)

/-- A response: a `$ref`-shaped object or an inline response with
description and optional content map. -/
inductive ResponseOrRef where
  | ref (r : String)
  | resp (description : String) (content : Option (List (String × MediaTypeObject)))

/-- An operation. `security := none` models an absent `security` field and
is distinguished from `security := some []` (present but empty). -/
structure Operation where
  summary : Option String
  description : Option String
  tags : Option (List String)
  operationId : Option String
  parameters : Option (List Parameter)
  requestBody : Option RequestBody
  responses : Option (List (String × ResponseOrRef))
  security : Option (List SecurityRequirement)

/-- A path item: an ordered mapping from HTTP method to operation, in the
declaration order of the underlying JSON object (at most one operation per
method). -/
structure PathItem where
  ops : List (HttpMethod × Operation)

/-- `pathItem[method]`: key lookup in the path-item object. -/
def PathItem.get? (pi : PathItem) (m : HttpMethod) : Option Operation :=
  (pi.ops.find? (fun p => p.1 == m)).map (fun p => p.2)

/-- The `components` object (only `schemas` is ever consumed). -/
structure Components where
  schemas : Option (List (String × Json))

/-- The root OpenAPI document, restricted to the fields the engine reads:
`paths` (ordered), optional `components.schemas`, optional global
`security`. -/
structure OpenAPISpec where
  paths : List (String × PathItem)
  components : Option Components
  security : Option (List SecurityRequirement)

/-- `spec.components?.schemas?.[name]`: optional-chained schema lookup. -/
def schemasLookup (spec : OpenAPISpec) (name : String) : Option Json :=
  match spec.components with
  | some comps =>
    match comps.schemas with
    | some schemas => (schemas.find? (fun p => p.1 == name)).map (fun p => p.2)
    | none => none
  | none => none

/- ## Endpoint Indexer (src/index.ts:57-85) -/

/-- The derived endpoint record (`EndpointInfo` in the source). -/
structure EndpointInfo where
  method : String
  path : String
  summary : Option String
  description : Option String
  tags : Option (List String)
  requiresAuth : Bool
  operationId : Option String
deriving DecidableEq, Repr

/-- The `requiresAuth` computation at src/index.ts:67-69: an operation-level
`security` list, even an empty one, overrides the document-level one. -/
def operationRequiresAuth (spec : OpenAPISpec) (operation : Operation) : Bool :=
  match operation.security with
  | some s => decide (0 < s.length)
  | none =>
    match spec.security with
    | some g => decide (0 < g.length)
    | none => false

/-- The record pushed for one present operation (src/index.ts:71-79). -/
def mkEndpointInfo (spec : OpenAPISpec) (path : String) (m : HttpMethod)
    (operation : Operation) : EndpointInfo :=
  { method := methodUpperName m
    path := path
    summary := operation.summary
    description := operation.description
    tags := operation.tags
    requiresAuth := operationRequiresAuth spec operation
    operationId := operation.operationId }

/-- The records emitted for a single path entry: the eight methods are
iterated in the fixed order of the `methods` array. -/
def pathRecords (spec : OpenAPISpec) (pp : String × PathItem) : List EndpointInfo :=
  httpMethods.filterMap (fun m =>
    (pp.2.get? m).map (fun operation => mkEndpointInfo spec pp.1 m operation))

/-- `extractEndpoints` (src/index.ts:57-85). -/
def extractEndpoints (spec : OpenAPISpec) : List EndpointInfo :=
  spec.paths.flatMap (fun pp => pathRecords spec pp)

/- ## Tag Indexer (src/index.ts:90-105) -/

/-- Every tag occurrence over all operations, in iteration order (the
elements successively added to the `Set` in `extractTags`). -/
def specTagOccurrences (spec : OpenAPISpec) : List String :=
  spec.paths.flatMap (fun pp =>
    httpMethods.flatMap (fun m =>
      match pp.2.get? m with
      | some operation => operation.tags.getD []
      | none => []))

/-- `extractTags` (src/index.ts:90-105): the distinct tags, sorted by
`Array.prototype.sort`'s default string comparison.  (A JS `Set` holds each
tag once; sorting the distinct occurrences yields the same list.) -/
def extractTags (spec : OpenAPISpec) : List String :=
  List.insertionSort strLe (specTagOccurrences spec).dedup

/- ## Reference Resolver (src/index.ts:121-130) -/

/-- `resolveSchemaRef`.  `parts[3]` on a split with fewer than four parts is
`undefined` in JS, and `obj[undefined]` looks up the property key
`"undefined"`; `(… as Schema) || null` maps a falsy schema value to null. -/
def resolveSchemaRef (spec : OpenAPISpec) (ref : String) : Option Json :=
  let parts := strSplitSlash ref
  if parts[0]? != some "#" || parts[1]? != some "components"
      || parts[2]? != some "schemas" then
    none
  else
    let schemaName := parts[3]?.getD "undefined"
    match schemasLookup spec schemaName with
    | some schema => if schema.truthy then some schema else none
    | none => none

/- ## Operation Lookup (src/index.ts:110-116) -/

/-- Recovers the method whose lower-case name equals the given string, if
any; models the key lookup `pathItem[method.toLowerCase()]`. -/
def methodOfLower (s : String) : Option HttpMethod :=
  httpMethods.find? (fun m => methodLowerName m == s)

/-- `findOperation` (src/index.ts:110-116): exact path match,
case-insensitive method match. -/
def findOperation (spec : OpenAPISpec) (method path : String) : Option Operation :=
  match spec.paths.find? (fun pp => pp.1 == path) with
  | none => none
  | some pp =>
    match methodOfLower (strLower method) with
    | some m => pp.2.get? m
    | none => none

/- ## JSON serialization (models `JSON.stringify(value, null, 2)`) -/

/-- Escaping of one character inside a JSON string literal. -/
def jsonEscapeChar (c : Char) : String :=
  if c = '"' then "\\\"" else if c = '\\' then "\\\\"
  else if c = '\n' then "\\n" else if c = '\t' then "\\t"
  else if c = '\r' then "\\r" else String.singleton c

/-- Escaping of a JSON string literal body. -/
def jsonEscape (s : String) : String :=
  (s.data.map jsonEscapeChar).foldl (fun a b => a ++ b) ""

/-- An indentation of `n` spaces. -/
def spaces (n : Nat) : String := String.mk (List.replicate n ' ')

mutual

/-- Pretty-printing of a JSON value with the layout of
`JSON.stringify(v, null, 2)`, at a given current indentation. -/
def Json.render : Json → Nat → String
  | .null, _ => "null"
  | .bool b, _ => if b then "true" else "false"
  | .num n, _ => toString n
  | .str s, _ => "\"" ++ jsonEscape s ++ "\""
  | .arr [], _ => "[]"
  | .arr (x :: xs), indent =>
      "[\n" ++ Json.renderItems (x :: xs) (indent + 2) ++ "\n" ++ spaces indent ++ "]"
  | .obj [], _ => "\x7b\x7d"
  | .obj (f :: fs), indent =>
      "\x7b\n" ++ Json.renderFields (f :: fs) (indent + 2) ++ "\n" ++ spaces indent ++ "\x7d"

/-- The comma-separated lines of a non-empty JSON array. -/
def Json.renderItems : List Json → Nat → String
  | [], _ => ""
  | [x], indent => spaces indent ++ Json.render x indent
  | x :: y :: xs, indent =>
      spaces indent ++ Json.render x indent ++ ",\n" ++ Json.renderItems (y :: xs) indent

/-- The comma-separated lines of a non-empty JSON object. -/
def Json.renderFields : List (String × Json) → Nat → String
  | [], _ => ""
  | [(k, v)], indent =>
      spaces indent ++ "\"" ++ jsonEscape k ++ "\": " ++ Json.render v indent
  | (k, v) :: g :: fs, indent =>
      spaces indent ++ "\"" ++ jsonEscape k ++ "\": " ++ Json.render v indent ++ ",\n" ++
        Json.renderFields (g :: fs) indent

end

/-- `JSON.stringify(x, null, 2)` at top level; `JSON.stringify(undefined)`
is the value `undefined`, which string concatenation renders as the text
`"undefined"`. -/
def stringifySchema : Option Json → String
  | some j => Json.render j 0
  | none => "undefined"

/- ## Endpoint detail renderer (src/index.ts:135-209) -/

/-- The authentication line of `formatEndpointDetails`
(src/index.ts:154-158); the `requiresAuth` expression there duplicates the
one in `extractEndpoints`. -/
def formatAuthLine (operation : Operation) (spec : OpenAPISpec) : String :=
  let requiresAuth :=
    match operation.security with
    | some s => decide (0 < s.length)
    | none =>
      match spec.security with
      | some g => decide (0 < g.length)
      | none => false
  "**Authentication Required:** " ++ (if requiresAuth then "Yes" else "No") ++ "\n\n"

/-- The parameters section of `formatEndpointDetails` (src/index.ts:161-170). -/
def formatParamsSection (operation : Operation) : String :=
  match operation.parameters with
  | some params =>
    if 0 < params.length then
      "## Parameters\n\n" ++
        params.foldl (fun out param =>
          out ++ "- **" ++ param.name ++ "** (" ++ param.«in» ++ ")" ++
            (if param.required then " *required*" else "") ++ "\n" ++
            (match param.description with
             | some d => "  - " ++ d ++ "\n"
             | none => "")) "" ++ "\n"
    else ""
  | none => ""

/-- One `**Content-Type:** …` block with its fenced schema
(src/index.ts:177-182 and 196-203). -/
def formatContentBlock (entry : String × MediaTypeObject) : String :=
  "**Content-Type:** " ++ entry.1 ++ "\n\n" ++
    "```json\n" ++ stringifySchema entry.2.schema ++ "\n```\n\n"

/-- The request-body section of `formatEndpointDetails`
(src/index.ts:173-183). -/
def formatRequestBodySection (operation : Operation) : String :=
  match operation.requestBody with
  | some rb =>
    "## Request Body\n\n" ++
      "**Required:** " ++ (if rb.required then "Yes" else "No") ++ "\n\n" ++
      rb.content.foldl (fun out entry => out ++ formatContentBlock entry) ""
  | none => ""

/-- The responses section of `formatEndpointDetails` (src/index.ts:186-206). -/
def formatResponsesSection (operation : Operation) : String :=
  match operation.responses with
  | some resps =>
    "## Responses\n\n" ++
      resps.foldl (fun out entry =>
        out ++ "### " ++ entry.1 ++ "\n\n" ++
          (match entry.2 with
           | .ref r => if r != "" then "Reference: " ++ r ++ "\n\n" else ""
           | .resp d content =>
             d ++ "\n\n" ++
               (match content with
                | some cs => cs.foldl (fun o e => o ++ formatContentBlock e) ""
                | none => ""))) ""
  | none => ""

/-- `formatEndpointDetails` (src/index.ts:135-209). -/
def formatEndpointDetails (operation : Operation) (method path : String)
    (spec : OpenAPISpec) : String :=
  "# " ++ strUpper method ++ " " ++ path ++ "\n\n" ++
    (match operation.summary with
     | some s => "**Summary:** " ++ s ++ "\n\n"
     | none => "") ++
    (match operation.description with
     | some d => "**Description:** " ++ d ++ "\n\n"
     | none => "") ++
    (match operation.tags with
     | some ts => if 0 < ts.length then "**Tags:** " ++ strJoinSep ", " ts ++ "\n\n" else ""
     | none => "") ++
    (match operation.operationId with
     | some oid => "**Operation ID:** " ++ oid ++ "\n\n"
     | none => "") ++
    formatAuthLine operation spec ++
    formatParamsSection operation ++
    formatRequestBodySection operation ++
    formatResponsesSection operation

/- ## Endpoint list renderer (src/index.ts:214-253) -/

/-- The group keys under which one record is filed (src/index.ts:221):
its tag list when non-empty, the synthetic `"Untagged"` group otherwise. -/
def recordTags (endpoint : EndpointInfo) : List String :=
  match endpoint.tags with
  | some ts => if 0 < ts.length then ts else ["Untagged"]
  | none => ["Untagged"]

/-- `groupedByTag.get(tag)!.push(endpoint)` on the insertion-ordered map,
creating the group if missing (src/index.ts:224-227). -/
def pushGrouped (groups : List (String × List EndpointInfo)) (tag : String)
    (endpoint : EndpointInfo) : List (String × List EndpointInfo) :=
  if groups.any (fun g => g.1 == tag) then
    groups.map (fun g => if g.1 == tag then (g.1, g.2 ++ [endpoint]) else g)
  else
    groups ++ [(tag, [endpoint])]

/-- The grouping loop of `formatEndpointsList` (src/index.ts:218-229). -/
def groupByTag (endpoints : List EndpointInfo) : List (String × List EndpointInfo) :=
  endpoints.foldl (fun groups endpoint =>
    (recordTags endpoint).foldl (fun gs tag => pushGrouped gs tag endpoint) groups) []

/-- `Array.from(groupedByTag.keys()).sort()` (src/index.ts:232). -/
def sortedTagsOf (endpoints : List EndpointInfo) : List String :=
  List.insertionSort strLe ((groupByTag endpoints).map (fun g => g.1))

/-- The lines rendered for the records of one tag group
(src/index.ts:238-247). -/
def groupLines (tagEndpoints : List EndpointInfo) : String :=
  tagEndpoints.foldl (fun out endpoint =>
    out ++ "- " ++ (if endpoint.requiresAuth then "🔒" else "🔓") ++
      " **" ++ endpoint.method ++ "** `" ++ endpoint.path ++ "`" ++
      (match endpoint.summary with
       | some s => " - " ++ s
       | none => "") ++ "\n") ""

/-- `formatEndpointsList` (src/index.ts:214-253). -/
def formatEndpointsList (endpoints : List EndpointInfo) : String :=
  let groups := groupByTag endpoints
  (sortedTagsOf endpoints).foldl (fun out tag =>
    out ++ "## " ++ tag ++ "\n\n" ++
      groupLines (((groups.find? (fun g => g.1 == tag)).map (fun g => g.2)).getD []) ++
      "\n") "# API Endpoints\n\n"

/- ## Tool handlers (src/index.ts:559-654); each returns the text content
of the tool result. -/

/-- The `get_endpoint_details` handler (src/index.ts:563-586). -/
def getEndpointDetails (spec : OpenAPISpec) (method path : String) : String :=
  match findOperation spec method path with
  | none => "Endpoint not found: " ++ strUpper method ++ " " ++ path
  | some operation => formatEndpointDetails operation method path spec

/-- The optional string arguments of the `search_endpoints` tool. -/
structure SearchArgs where
  query : Option String
  tag : Option String
  method : Option String

/-- The query predicate of the `search_endpoints` handler
(src/index.ts:600-605), applied to the lower-cased query. -/
def queryFilterKeeps (lowerQuery : String) (ep : EndpointInfo) : Bool :=
  strIncludes (strLower ep.path) lowerQuery ||
    (match ep.summary with
     | some s => strIncludes (strLower s) lowerQuery
     | none => false) ||
    (match ep.description with
     | some d => strIncludes (strLower d) lowerQuery
     | none => false)

/-- The filtering pipeline of the `search_endpoints` handler
(src/index.ts:595-614).  Each `if (arg)` guard in JS skips the filter both
when the argument is absent and when it is the empty string. -/
def searchEndpoints (spec : OpenAPISpec) (args : SearchArgs) : List EndpointInfo :=
  let endpoints := extractEndpoints spec
  let endpoints :=
    match args.query with
    | some query =>
      if query != "" then endpoints.filter (queryFilterKeeps (strLower query))
      else endpoints
    | none => endpoints
  let endpoints :=
    match args.tag with
    | some tag =>
      if tag != "" then
        endpoints.filter (fun ep =>
          match ep.tags with
          | some ts => ts.contains tag
          | none => false)
      else endpoints
    | none => endpoints
  let endpoints :=
    match args.method with
    | some method =>
      if method != "" then endpoints.filter (fun ep => ep.method == strUpper method)
      else endpoints
    | none => endpoints
  endpoints

/-- The `get_schema_details` handler (src/index.ts:626-649); `if (!schema)`
treats both a missing and a falsy schema value as not found. -/
def getSchemaDetails (spec : OpenAPISpec) (schemaName : String) : String :=
  match schemasLookup spec schemaName with
  | some schema =>
    if schema.truthy then
      "# Schema: " ++ schemaName ++ "\n\n```json\n" ++ Json.render schema 0 ++ "\n```"
    else
      "Schema not found: " ++ schemaName
  | none => "Schema not found: " ++ schemaName

/- ## Line helpers used to state rendering claims -/

/-- The tag headings of a rendered endpoint list: the text after `"## "` on
each line that starts with it. -/
def headingLinesOf (s : String) : List String :=
  (chSplitOn '\n' s.data).filterMap (fun l =>
    if "## ".data.isPrefixOf l then some (String.mk (l.drop 3)) else none)

/-- The number of rendered endpoint lines of an endpoint list: the lines
that start with `"- "`. -/
def dashLineCount (s : String) : Nat :=
  ((chSplitOn '\n' s.data).filter (fun l => "- ".data.isPrefixOf l)).length


/- ## Properties of the sort comparator -/

theorem chLe_total : ∀ a b : List Char, chLe a b = true ∨ chLe b a = true
  | [], _ => Or.inl rfl
  | _ :: _, [] => Or.inr rfl
  | a :: as, b :: bs => by
    simp only [chLe]
    rcases lt_trichotomy a b with h | h | h
    · left; rw [if_pos h]
    · subst h
      rcases chLe_total as bs with ih | ih
      · left; rw [if_neg (lt_irrefl a), if_neg (lt_irrefl a)]; exact ih
      · right; rw [if_neg (lt_irrefl a), if_neg (lt_irrefl a)]; exact ih
    · right; rw [if_pos h]

theorem chLe_trans : ∀ a b c : List Char,
    chLe a b = true → chLe b c = true → chLe a c = true
  | [], _, _, _, _ => rfl
  | _ :: _, [], _, hab, _ => by simp [chLe] at hab
  | _ :: _, _ :: _, [], _, hbc => by simp [chLe] at hbc
  | a :: as, b :: bs, c :: cs, hab, hbc => by
    simp only [chLe] at hab hbc ⊢
    rcases lt_trichotomy a b with h1 | h1 | h1
    · rcases lt_trichotomy b c with h2 | h2 | h2
      · rw [if_pos (h1.trans h2)]
      · rw [if_pos (h2 ▸ h1)]
      · rw [if_neg (lt_asymm h2), if_pos h2] at hbc
        simp at hbc
    · subst h1
      rw [if_neg (lt_irrefl a), if_neg (lt_irrefl a)] at hab
      rcases lt_trichotomy a c with h2 | h2 | h2
      · rw [if_pos h2]
      · subst h2
        rw [if_neg (lt_irrefl a), if_neg (lt_irrefl a)] at hbc
        rw [if_neg (lt_irrefl a), if_neg (lt_irrefl a)]
        exact chLe_trans as bs cs hab hbc
      · rw [if_neg (lt_asymm h2), if_pos h2] at hbc
        simp at hbc
    · rw [if_neg (lt_asymm h1), if_pos h1] at hab
      simp at hab

theorem chLe_iff : ∀ a b : List Char, chLe a b = true ↔ (chLt a b = true ∨ a = b)
  | [], [] => by simp [chLe, chLt]
  | [], _ :: _ => by simp [chLe, chLt]
  | _ :: _, [] => by simp [chLe, chLt]
  | a :: as, b :: bs => by
    simp only [chLe, chLt]
    rcases lt_trichotomy a b with h | h | h
    · rw [if_pos h, if_pos h]; simp
    · subst h
      rw [if_neg (lt_irrefl a), if_neg (lt_irrefl a), if_neg (lt_irrefl a),
        if_neg (lt_irrefl a)]
      rw [chLe_iff as bs]
      constructor
      · rintro (h' | h')
        · exact Or.inl h'
        · exact Or.inr (by rw [h'])
      · rintro (h' | h')
        · exact Or.inl h'
        · exact Or.inr (by injection h')
    · have hne : (a :: as) ≠ (b :: bs) := by
        intro he; injection he with h1 _; exact absurd h1 (ne_of_gt h)
      rw [if_neg (lt_asymm h), if_pos h, if_neg (lt_asymm h), if_pos h]
      simp [hne]

theorem chLt_iff_lex : ∀ a b : List Char, chLt a b = true ↔ List.Lex (· < ·) a b
  | [], [] => by
    simp only [chLt, Bool.false_eq_true, false_iff]
    exact fun h => by cases h
  | [], _ :: _ => by
    simp only [chLt, true_iff]
    exact List.Lex.nil
  | _ :: _, [] => by
    simp only [chLt, Bool.false_eq_true, false_iff]
    exact fun h => by cases h
  | a :: as, b :: bs => by
    simp only [chLt]
    rcases lt_trichotomy a b with h | h | h
    · rw [if_pos h]
      simp only [true_iff]
      exact List.Lex.rel h
    · subst h
      rw [if_neg (lt_irrefl a), if_neg (lt_irrefl a)]
      rw [chLt_iff_lex as bs]
      constructor
      · exact fun h' => List.Lex.cons h'
      · intro h'
        cases h' with
        | cons h'' => exact h''
        | rel h'' => exact absurd h'' (lt_irrefl _)
    · rw [if_neg (lt_asymm h), if_pos h]
      simp only [Bool.false_eq_true, false_iff]
      intro h'
      cases h' with
      | cons _ => exact absurd h (lt_irrefl _)
      | rel h'' => exact absurd h'' (lt_asymm h)

theorem chLt_iff_string_lt (a b : String) : chLt a.data b.data = true ↔ a < b := by
  rw [String.lt_iff_toList_lt]
  exact chLt_iff_lex a.data b.data

instance : IsTotal String strLe :=
  ⟨fun a b => chLe_total a.data b.data⟩

instance : IsTrans String strLe :=
  ⟨fun a b c hab hbc => chLe_trans a.data b.data c.data hab hbc⟩

theorem strLe_resolve {a b : String} (h : strLe a b) (hne : a ≠ b) : a < b := by
  rcases (chLe_iff a.data b.data).mp h with h' | h'
  · exact (chLt_iff_string_lt a b).mp h'
  · exact absurd (String.toList_inj.mp h') hne

/-- A `strLe`-sorted list without duplicates is sorted for the strict
string order. -/
theorem sorted_lt_of_sorted_strLe {l : List String}
    (hs : l.Sorted strLe) (hn : l.Nodup) : l.Sorted (· < ·) :=
  (hs.and hn).imp (fun h => strLe_resolve h.1 h.2)

/- ## General helper lemmas -/

theorem mem_httpMethods : ∀ m : HttpMethod, m ∈ httpMethods := by
  intro m; cases m <;> simp [httpMethods]

/-- The let-bound `requiresAuth` inside `formatEndpointDetails` computes the
same boolean as `extractEndpoints` does. -/
theorem formatAuthLine_eq (operation : Operation) (spec : OpenAPISpec) :
    formatAuthLine operation spec =
      "**Authentication Required:** " ++
        (if operationRequiresAuth spec operation then "Yes" else "No") ++ "\n\n" := rfl

/-- C1: an operation with a non-empty `security` list requires auth; an
operation with an empty `security` list requires none regardless of the
document's global security; an operation without a `security` field
requires auth exactly when the document's global security list is present
and non-empty.  This governs both the `requiresAuth` field of every record
emitted by `extractEndpoints` and the authentication line of
`formatEndpointDetails`. -/
theorem requiresAuth_override_rule (spec : OpenAPISpec) (operation : Operation) :
    (∀ s, operation.security = some s → s ≠ [] →
      operationRequiresAuth spec operation = true ∧
        formatAuthLine operation spec = "**Authentication Required:** Yes\n\n") ∧
    (operation.security = some [] →
      operationRequiresAuth spec operation = false ∧
        formatAuthLine operation spec = "**Authentication Required:** No\n\n") ∧
    (operation.security = none →
      ((operationRequiresAuth spec operation = true ↔
          ∃ g, spec.security = some g ∧ g ≠ []) ∧
        (formatAuthLine operation spec = "**Authentication Required:** Yes\n\n" ↔
          ∃ g, spec.security = some g ∧ g ≠ []))) ∧
    (∀ pp ∈ spec.paths, ∀ m operation', pp.2.get? m = some operation' →
      mkEndpointInfo spec pp.1 m operation' ∈ extractEndpoints spec ∧
        (mkEndpointInfo spec pp.1 m operation').requiresAuth =
          operationRequiresAuth spec operation') := by
  have hauth_none : operation.security = none →
      (operationRequiresAuth spec operation = true ↔ ∃ g, spec.security = some g ∧ g ≠ []) := by
    intro h
    cases hg : spec.security with
    | none => simp [operationRequiresAuth, h, hg]
    | some g =>
      simp only [operationRequiresAuth, h, hg, decide_eq_true_eq]
      constructor
      · intro hlen
        exact ⟨g, rfl, List.length_pos.mp hlen⟩
      · rintro ⟨g', hg', hne⟩
        injection hg' with e
        subst e
        exact List.length_pos.mpr hne
  refine ⟨?_, ?_, ?_, ?_⟩
  · intro s hs hne
    have hpos : 0 < s.length := List.length_pos.mpr hne
    refine ⟨by simp [operationRequiresAuth, hs, hpos], ?_⟩
    rw [formatAuthLine_eq]
    simp [operationRequiresAuth, hs, hpos]
  · intro h
    refine ⟨by simp [operationRequiresAuth, h], ?_⟩
    rw [formatAuthLine_eq]
    simp [operationRequiresAuth, h]
  · intro h
    refine ⟨hauth_none h, ?_⟩
    rw [formatAuthLine_eq]
    cases hb : operationRequiresAuth spec operation
    · rw [← hauth_none h]
      constructor
      · intro hline
        exact absurd hline (by decide)
      · intro htrue
        exact absurd (hb ▸ htrue) (by simp)
    · rw [← hauth_none h]
      constructor
      · intro _
        exact hb
      · intro _
        decide
  · intro pp hpp m operation' hop
    refine ⟨?_, rfl⟩
    rw [extractEndpoints, List.mem_flatMap]
    refine ⟨pp, hpp, ?_⟩
    rw [pathRecords, List.mem_filterMap]
    exact ⟨m, mem_httpMethods m, by rw [hop]; rfl⟩

/-- C1 witness: a document with global security and an operation without a
`security` field. -/
theorem requiresAuth_override_rule_witness :
    operationRequiresAuth
      { paths := [], components := none, security := some [[("bearer", [])]] }
      { summary := none, description := none, tags := none, operationId := none,
        parameters := none, requestBody := none, responses := none,
        security := none } = true := by
  have h := (requiresAuth_override_rule
    { paths := [], components := none, security := some [[("bearer", [])]] }
    { summary := none, description := none, tags := none, operationId := none,
      parameters := none, requestBody := none, responses := none,
      security := none }).2.2.1 rfl
  exact h.1.mpr ⟨[[("bearer", [])]], rfl, by simp⟩

/-- C2: `extractTags` is strictly sorted (hence duplicate-free) and its
members are exactly the tags declared by some operation of the document;
it is empty when no operation declares a tag. -/
theorem extractTags_sorted_union (spec : OpenAPISpec) :
    List.Sorted (· < ·) (extractTags spec) ∧
    (∀ t, t ∈ extractTags spec ↔
      ∃ pp ∈ spec.paths, ∃ m operation, pp.2.get? m = some operation ∧
        t ∈ operation.tags.getD []) ∧
    ((∀ pp ∈ spec.paths, ∀ m operation, pp.2.get? m = some operation →
        operation.tags.getD [] = []) →
      extractTags spec = []) := by
  have hperm : List.Perm (extractTags spec) (specTagOccurrences spec).dedup :=
    List.perm_insertionSort strLe _
  have hnd : (extractTags spec).Nodup :=
    hperm.symm.nodup (List.nodup_dedup _)
  have hmem : ∀ t, t ∈ extractTags spec ↔
      ∃ pp ∈ spec.paths, ∃ m operation, pp.2.get? m = some operation ∧
        t ∈ operation.tags.getD [] := by
    intro t
    rw [hperm.mem_iff, List.mem_dedup]
    have hbranch : ∀ x : Option Operation,
        t ∈ (match x with
             | some operation => operation.tags.getD []
             | none => []) ↔
          ∃ operation, x = some operation ∧ t ∈ operation.tags.getD [] := by
      intro x
      cases x <;> simp
    simp only [specTagOccurrences, List.mem_flatMap, hbranch]
    constructor
    · rintro ⟨pp, hpp, m, _, operation, hop, ht⟩
      exact ⟨pp, hpp, m, operation, hop, ht⟩
    · rintro ⟨pp, hpp, m, operation, hop, ht⟩
      exact ⟨pp, hpp, m, mem_httpMethods m, operation, hop, ht⟩
  refine ⟨?_, hmem, ?_⟩
  · exact sorted_lt_of_sorted_strLe (List.sorted_insertionSort strLe _) hnd
  · intro hempty
    rw [List.eq_nil_iff_forall_not_mem]
    intro t ht
    rcases (hmem t).mp ht with ⟨pp, hpp, m, operation, hop, htags⟩
    rw [hempty pp hpp m operation hop] at htags
    exact (List.not_mem_nil t) htags

/-- C2 witness: a document with no paths indexes no tags. -/
theorem extractTags_sorted_union_witness :
    extractTags { paths := [], components := none, security := none } = [] :=
  (extractTags_sorted_union
    { paths := [], components := none, security := none }).2.2 (by simp)

/- ## Example documents reused by witnesses and counterexamples -/

/-- An operation with every optional field absent. -/
def emptyOperation : Operation :=
  { summary := none, description := none, tags := none, operationId := none,
    parameters := none, requestBody := none, responses := none, security := none }

/-- A one-endpoint document in the style of the specification's example
scenario: `POST /login`, tagged `Auth`, document-level security present. -/
def exDoc : OpenAPISpec :=
  { paths := [("/login",
      ⟨[(.post,
        { emptyOperation with
            summary := some "Login"
            description := some "Log in a business user"
            tags := some ["Auth"]
            operationId := some "login" })]⟩)]
    components := some ⟨some [("User", Json.obj [("type", Json.str "object")])]⟩
    security := some [[("bearer", [])]] }

/-- A minimal document whose single operation has the tag list `["A"]`. -/
def exSpecTagA : OpenAPISpec :=
  { paths := [("/a", ⟨[(.get, { emptyOperation with tags := some ["A"] })]⟩)],
    components := none, security := none }

/-- C5: the search pipeline with no filters is the identity on the full
index, and an empty-string query behaves exactly like an absent query. -/
theorem searchEndpoints_no_filters (spec : OpenAPISpec) :
    searchEndpoints spec ⟨none, none, none⟩ = extractEndpoints spec ∧
    ∀ t m, searchEndpoints spec ⟨some "", t, m⟩ = searchEndpoints spec ⟨none, t, m⟩ :=
  ⟨rfl, fun _ _ => rfl⟩

/-- C7: the query filter keeps a record exactly when the lower-cased path,
summary or description contains the lower-cased query as a substring, a
missing summary or description simply failing its sub-check; and for a
non-empty query the handler returns precisely the filtered full index. -/
theorem queryFilter_characterization (q : String) (hq : q ≠ "") :
    (∀ ep : EndpointInfo, queryFilterKeeps (strLower q) ep = true ↔
      (strIncludes (strLower ep.path) (strLower q) = true ∨
        (∃ s, ep.summary = some s ∧ strIncludes (strLower s) (strLower q) = true) ∨
        (∃ d, ep.description = some d ∧ strIncludes (strLower d) (strLower q) = true))) ∧
    ∀ spec, searchEndpoints spec ⟨some q, none, none⟩ =
      (extractEndpoints spec).filter (queryFilterKeeps (strLower q)) := by
  constructor
  · intro ep
    cases hs : ep.summary <;> cases hd : ep.description <;>
      simp [queryFilterKeeps, hs, hd, or_assoc]
  · intro spec
    have hne : (q != "") = true := bne_iff_ne.mpr hq
    simp [searchEndpoints, hne]

/-- C7 witness: searching the example document for `"log"`. -/
theorem queryFilter_characterization_witness :
    searchEndpoints exDoc ⟨some "log", none, none⟩ =
      (extractEndpoints exDoc).filter (queryFilterKeeps (strLower "log")) :=
  (queryFilter_characterization "log" (by decide)).2 exDoc

/-- C6 amended: for a NON-EMPTY tag string the handler returns exactly the
records of the full index whose tag list contains the tag (case-sensitive),
as an order-preserving sublist; an empty tag string is treated as "no
filter" by the `if (tag)` guard rather than matching literally. -/
theorem searchEndpoints_tag_filter (spec : OpenAPISpec) (tag : String) (ht : tag ≠ "") :
    (searchEndpoints spec ⟨none, some tag, none⟩).Sublist (extractEndpoints spec) ∧
    (∀ ep ∈ searchEndpoints spec ⟨none, some tag, none⟩,
      ∃ ts, ep.tags = some ts ∧ tag ∈ ts) ∧
    (∀ ep ∈ extractEndpoints spec, (∃ ts, ep.tags = some ts ∧ tag ∈ ts) →
      ep ∈ searchEndpoints spec ⟨none, some tag, none⟩) := by
  have hne : (tag != "") = true := bne_iff_ne.mpr ht
  have he : searchEndpoints spec ⟨none, some tag, none⟩ =
      (extractEndpoints spec).filter (fun ep =>
        match ep.tags with
        | some ts => ts.contains tag
        | none => false) := by
    simp [searchEndpoints, hne]
  have hpred : ∀ ep : EndpointInfo,
      ((match ep.tags with
        | some ts => ts.contains tag
        | none => false) = true) ↔ ∃ ts, ep.tags = some ts ∧ tag ∈ ts := by
    intro ep
    cases hts : ep.tags <;> simp [List.contains]
  rw [he]
  refine ⟨List.filter_sublist _, ?_, ?_⟩
  · intro ep hep
    exact (hpred ep).mp (List.mem_filter.mp hep).2
  · intro ep hep hex
    exact List.mem_filter.mpr ⟨hep, (hpred ep).mpr hex⟩

/-- C6 witness: filtering the example single-record document by its tag. -/
theorem searchEndpoints_tag_filter_witness :
    (searchEndpoints exSpecTagA ⟨none, some "A", none⟩).Sublist
      (extractEndpoints exSpecTagA) :=
  (searchEndpoints_tag_filter exSpecTagA "A" (by decide)).1

/-- C6 counterexample: with `tag = ""` the handler returns the full index
(here one record whose tag list is `["A"]`), although no record's tag list
contains `""`; the claim as stated would require an empty result. -/
theorem searchEndpoints_tag_filter_counterexample :
    (searchEndpoints exSpecTagA ⟨none, some "", none⟩).length = 1 ∧
    ∀ ep ∈ searchEndpoints exSpecTagA ⟨none, some "", none⟩,
      "" ∉ ep.tags.getD [] := by decide

/- ## C4: the reference resolver -/

theorem take_three_iff (l : List String) (a b c : String) :
    l.take 3 = [a, b, c] ↔
      l[0]? = some a ∧ l[1]? = some b ∧ l[2]? = some c := by
  match l with
  | [] => simp
  | [x] => simp
  | [x, y] => simp
  | x :: y :: z :: rest => simp [List.take]

/-- The branch structure of `resolveSchemaRef`, with the three `!=` guards
bundled into one propositional condition. -/
theorem resolveSchemaRef_eq (spec : OpenAPISpec) (r : String) :
    resolveSchemaRef spec r =
      if (strSplitSlash r)[0]? = some "#" ∧ (strSplitSlash r)[1]? = some "components"
          ∧ (strSplitSlash r)[2]? = some "schemas" then
        match schemasLookup spec ((strSplitSlash r)[3]?.getD "undefined") with
        | some schema => if schema.truthy then some schema else none
        | none => none
      else none := by
  by_cases h : (strSplitSlash r)[0]? = some "#" ∧
      (strSplitSlash r)[1]? = some "components" ∧
      (strSplitSlash r)[2]? = some "schemas"
  · have hcond : ((strSplitSlash r)[0]? != some "#" ||
        (strSplitSlash r)[1]? != some "components" ||
        (strSplitSlash r)[2]? != some "schemas") = false := by
      simp [h.1, h.2.1, h.2.2]
    rw [if_pos h]
    simp only [resolveSchemaRef, hcond, Bool.false_eq_true, if_false]
  · have hcond : ((strSplitSlash r)[0]? != some "#" ||
        (strSplitSlash r)[1]? != some "components" ||
        (strSplitSlash r)[2]? != some "schemas") = true := by
      simp only [Bool.or_eq_true, bne_iff_ne]
      by_contra hc
      push_neg at hc
      exact h ⟨hc.1.1, hc.1.2, hc.2⟩
    rw [if_neg h]
    simp only [resolveSchemaRef, hcond, if_true]

/-- C4 amended: `resolveSchemaRef` returns a schema exactly when the first
three `/`-separated parts of the reference are `#`, `components`, `schemas`
and the FOURTH part (the key `"undefined"` when there are fewer than four
parts, mirroring JS property-key coercion) names a truthy schema value;
parts beyond the fourth are ignored rather than rejected, and a lookup miss
yields `none` rather than an exception. -/
theorem resolveSchemaRef_characterization (spec : OpenAPISpec) (r : String) (s : Json) :
    resolveSchemaRef spec r = some s ↔
      ((strSplitSlash r).take 3 = ["#", "components", "schemas"] ∧
        schemasLookup spec ((strSplitSlash r)[3]?.getD "undefined") = some s ∧
        s.truthy = true) := by
  rw [resolveSchemaRef_eq, take_three_iff]
  by_cases h : (strSplitSlash r)[0]? = some "#" ∧
      (strSplitSlash r)[1]? = some "components" ∧
      (strSplitSlash r)[2]? = some "schemas"
  · rw [if_pos h]
    cases hl : schemasLookup spec ((strSplitSlash r)[3]?.getD "undefined") with
    | none => simp [h]
    | some schema =>
      cases htr : schema.truthy with
      | false =>
        constructor
        · intro he
          simp [htr] at he
        · rintro ⟨-, he, htru⟩
          injection he with e
          subst e
          rw [htr] at htru
          exact absurd htru (by simp)
      | true =>
        constructor
        · intro he
          simp only [htr, if_true] at he
          injection he with e
          subst e
          exact ⟨h, rfl, htr⟩
        · rintro ⟨-, he, -⟩
          injection he with e
          subst e
          simp [htr]
  · rw [if_neg h]
    simp [h]

/-- A document holding exactly one schema, named `Foo`. -/
def exSpecFoo : OpenAPISpec :=
  { paths := [],
    components := some ⟨some [("Foo", Json.obj [("type", Json.str "object")])]⟩,
    security := none }

/-- C4 counterexample: the reference `#/components/schemas/Foo/extra` is not
of the exact shape `#/components/schemas/<Name>` for any name present in the
document (the only schema is `Foo`, and `Foo/extra` is absent), yet the
resolver returns a schema instead of the claimed not-found result. -/
theorem resolveSchemaRef_counterexample :
    (resolveSchemaRef exSpecFoo "#/components/schemas/Foo/extra").isSome = true ∧
    schemasLookup exSpecFoo "Foo/extra" = none :=
  ⟨rfl, rfl⟩

/- ## C8: lookup misses -/

/-- C8: for a method/path combination not present in the document (path
matched exactly, method matched case-insensitively) the endpoint handler
returns the plain not-found text naming the requested method and path, and
for an absent schema name the schema handler returns the plain not-found
text naming the schema; both answers flow through the normal return value
of a total function.  Method matching depends only on the lower-cased
method string. -/
theorem lookup_miss_not_found (spec : OpenAPISpec) (method path schemaName : String)
    (hop : ∀ pp ∈ spec.paths, pp.1 = path →
      ∀ m, methodLowerName m = strLower method → pp.2.get? m = none)
    (hsch : ∀ comps, spec.components = some comps →
      ∀ schemas, comps.schemas = some schemas →
      ∀ p ∈ schemas, p.1 ≠ schemaName) :
    getEndpointDetails spec method path =
        "Endpoint not found: " ++ strUpper method ++ " " ++ path ∧
    getSchemaDetails spec schemaName = "Schema not found: " ++ schemaName ∧
    (∀ method2 : String, strLower method2 = strLower method →
      findOperation spec method2 path = findOperation spec method path) := by
  have hfind : findOperation spec method path = none := by
    cases hf : spec.paths.find? (fun pp => pp.1 == path) with
    | none => simp [findOperation, hf]
    | some pp =>
      have hmem := List.mem_of_find?_eq_some hf
      have hb := List.find?_some hf
      simp only [beq_iff_eq] at hb
      cases hm : methodOfLower (strLower method) with
      | none => simp [findOperation, hf, hm]
      | some m =>
        have hbm := List.find?_some hm
        simp only [beq_iff_eq] at hbm
        simp [findOperation, hf, hm, hop pp hmem hb m hbm]
  have hlk : schemasLookup spec schemaName = none := by
    cases hc : spec.components with
    | none => simp [schemasLookup, hc]
    | some comps =>
      cases hs2 : comps.schemas with
      | none => simp [schemasLookup, hc, hs2]
      | some schemas =>
        have hf : schemas.find? (fun p => p.1 == schemaName) = none := by
          rw [List.find?_eq_none]
          intro p hp
          simp only [beq_iff_eq]
          exact hsch comps hc schemas hs2 p hp
        simp [schemasLookup, hc, hs2, hf]
  refine ⟨?_, ?_, ?_⟩
  · rw [getEndpointDetails, hfind]
  · rw [getSchemaDetails, hlk]
  · intro method2 h2
    rw [findOperation, findOperation, h2]

/-- C8 witness: an unknown path and an unknown schema name on the example
document. -/
theorem lookup_miss_not_found_witness :
    getEndpointDetails exDoc "GET" "/nope" = "Endpoint not found: GET /nope" ∧
    getSchemaDetails exDoc "Missing" = "Schema not found: Missing" := by
  have h := lookup_miss_not_found exDoc "GET" "/nope" "Missing"
    (by
      intro pp hpp hpath
      simp only [exDoc, List.mem_singleton] at hpp
      rw [hpp] at hpath
      exact absurd hpath (by decide))
    (by
      intro comps hc schemas hs2 p hp
      simp only [exDoc, Option.some.injEq] at hc
      rw [← hc] at hs2
      simp only [Option.some.injEq] at hs2
      rw [← hs2, List.mem_singleton] at hp
      rw [hp]
      decide)
  exact ⟨h.1, h.2.1⟩

/- ## C9: index order -/

/-- The position of a method in the fixed iteration order of the `methods`
array. -/
def methodRank : HttpMethod → Nat
  | .get => 0
  | .post => 1
  | .put => 2
  | .patch => 3
  | .delete => 4
  | .options => 5
  | .head => 6
  | .trace => 7

/-- The position, in the fixed iteration order, of the method named by an
upper-cased method string (8 for any other string). -/
def methodNameRank (s : String) : Nat :=
  if s = "GET" then 0 else if s = "POST" then 1 else if s = "PUT" then 2
  else if s = "PATCH" then 3 else if s = "DELETE" then 4 else if s = "OPTIONS" then 5
  else if s = "HEAD" then 6 else if s = "TRACE" then 7 else 8

theorem methodNameRank_upper (m : HttpMethod) :
    methodNameRank (methodUpperName m) = methodRank m := by
  cases m <;> rfl

theorem sorted_map_filterMap {α β : Type} (l : List α) (f : α → Option β)
    (g : β → Nat) (h : α → Nat)
    (hfg : ∀ a b, f a = some b → g b = h a)
    (hs : (l.map h).Sorted (· < ·)) :
    ((l.filterMap f).map g).Sorted (· < ·) := by
  induction l with
  | nil => simp
  | cons a t ih =>
    rw [List.map_cons, List.sorted_cons] at hs
    cases hf : f a with
    | none =>
      rw [List.filterMap_cons_none hf]
      exact ih hs.2
    | some b =>
      rw [List.filterMap_cons_some hf, List.map_cons, List.sorted_cons]
      refine ⟨?_, ih hs.2⟩
      intro x hx
      rcases List.mem_map.mp hx with ⟨b', hb', rfl⟩
      rcases List.mem_filterMap.mp hb' with ⟨a', ha', hfa'⟩
      rw [hfg a b hf, hfg a' b' hfa']
      exact hs.1 (h a') (List.mem_map_of_mem h ha')

theorem length_filterMap_eq_length_filter {α β : Type} (l : List α) (f : α → Option β) :
    (l.filterMap f).length = (l.filter (fun a => (f a).isSome)).length := by
  induction l with
  | nil => rfl
  | cons a t ih =>
    cases hf : f a <;> simp [List.filterMap_cons, List.filter_cons, hf, ih]

/-- C9 amended: `extractEndpoints` emits exactly one record per present
operation, grouped by document path order; but within one path the records
follow the FIXED iteration order of the eight-method array
(get, post, put, patch, delete, options, head, trace), not the declaration
order of the path item. -/
theorem extractEndpoints_order (spec : OpenAPISpec) :
    extractEndpoints spec = spec.paths.flatMap (fun pp => pathRecords spec pp) ∧
    ∀ pp ∈ spec.paths,
      (pathRecords spec pp).length =
        (httpMethods.filter (fun m => (pp.2.get? m).isSome)).length ∧
      (∀ m operation, pp.2.get? m = some operation →
        mkEndpointInfo spec pp.1 m operation ∈ pathRecords spec pp) ∧
      ((pathRecords spec pp).map (fun rec => methodNameRank rec.method)).Sorted (· < ·) := by
  refine ⟨rfl, ?_⟩
  intro pp _
  refine ⟨?_, ?_, ?_⟩
  · rw [pathRecords, length_filterMap_eq_length_filter]
    have he : (fun m => ((pp.2.get? m).map
        (fun operation => mkEndpointInfo spec pp.1 m operation)).isSome) =
        (fun m => (pp.2.get? m).isSome) := by
      funext m
      cases pp.2.get? m <;> rfl
    rw [he]
  · intro m operation hop
    rw [pathRecords, List.mem_filterMap]
    exact ⟨m, mem_httpMethods m, by rw [hop]; rfl⟩
  · apply sorted_map_filterMap httpMethods _ _ methodRank
    · intro m rec hf
      rcases Option.map_eq_some'.mp hf with ⟨operation, _, hrec⟩
      rw [← hrec]
      exact methodNameRank_upper m
    · decide

/-- A path item that declares its `post` operation before its `get`
operation. -/
def exPathItemOrder : PathItem :=
  ⟨[(.post, { emptyOperation with operationId := some "postFirst" }),
    (.get, { emptyOperation with operationId := some "getSecond" })]⟩

/-- A document with a single path whose item declares `post` before `get`. -/
def exSpecOrder : OpenAPISpec :=
  { paths := [("/a", exPathItemOrder)], components := none, security := none }

/-- C9 witness: the POST record of the example path is emitted. -/
theorem extractEndpoints_order_witness :
    mkEndpointInfo exSpecOrder "/a" .post
        { emptyOperation with operationId := some "postFirst" } ∈
      pathRecords exSpecOrder ("/a", exPathItemOrder) :=
  ((extractEndpoints_order exSpecOrder).2 ("/a", exPathItemOrder)
    (by simp [exSpecOrder])).2.1 .post
    { emptyOperation with operationId := some "postFirst" } rfl

/-- C9 counterexample: the path item declares POST before GET, but the
emitted records follow the fixed method order GET before POST, refuting
"method-declaration order of that path item". -/
theorem extractEndpoints_order_counterexample :
    (extractEndpoints exSpecOrder).map (fun rec => rec.method) = ["GET", "POST"] ∧
    exPathItemOrder.ops.map (fun po => methodUpperName po.1) = ["POST", "GET"] ∧
    (extractEndpoints exSpecOrder).map (fun rec => rec.method) ≠
      exPathItemOrder.ops.map (fun po => methodUpperName po.1) := by decide

/- ## C3, C10: the tag-grouping loop of the list renderer -/

/-- The keys of the grouping map, in insertion order. -/
def groupKeys (groups : List (String × List EndpointInfo)) : List String :=
  groups.map (fun g => g.1)

/-- The total number of record entries filed across all groups; each entry
is rendered as one endpoint line. -/
def groupSizes (groups : List (String × List EndpointInfo)) : Nat :=
  (groups.map (fun g => g.2.length)).sum

/-- Every record filed under a group key was filed there from its own
`recordTags` list. -/
def groupsInv (groups : List (String × List EndpointInfo)) : Prop :=
  ∀ p ∈ groups, ∀ x ∈ p.2, p.1 ∈ recordTags x

theorem pushGrouped_keys (groups : List (String × List EndpointInfo))
    (tag : String) (e : EndpointInfo) :
    groupKeys (pushGrouped groups tag e) =
      if tag ∈ groupKeys groups then groupKeys groups
      else groupKeys groups ++ [tag] := by
  rw [pushGrouped, groupKeys]
  by_cases h : groups.any (fun g => g.1 == tag) = true
  · rw [if_pos h]
    have hmem : tag ∈ groupKeys groups := by
      rcases List.any_eq_true.mp h with ⟨g, hg, he⟩
      exact List.mem_map.mpr ⟨g, hg, eq_of_beq he⟩
    rw [if_pos hmem, List.map_map, groupKeys]
    apply List.map_congr_left
    intro g _
    by_cases hg : (g.1 == tag) = true <;> simp [Function.comp, hg]
  · rw [if_neg h]
    have hmem : tag ∉ groupKeys groups := by
      intro hmem
      rcases List.mem_map.mp hmem with ⟨g, hg, he⟩
      apply h
      exact List.any_eq_true.mpr ⟨g, hg, beq_iff_eq.mpr he⟩
    rw [if_neg hmem, List.map_append, groupKeys]
    rfl

theorem mem_groupKeys_pushGrouped {t : String}
    (groups : List (String × List EndpointInfo)) (tag : String) (e : EndpointInfo) :
    t ∈ groupKeys (pushGrouped groups tag e) ↔ t ∈ groupKeys groups ∨ t = tag := by
  rw [pushGrouped_keys]
  by_cases h : tag ∈ groupKeys groups
  · rw [if_pos h]
    constructor
    · exact Or.inl
    · rintro (ht | rfl)
      · exact ht
      · exact h
  · rw [if_neg h]
    simp

theorem nodup_groupKeys_pushGrouped (groups : List (String × List EndpointInfo))
    (tag : String) (e : EndpointInfo) (hnd : (groupKeys groups).Nodup) :
    (groupKeys (pushGrouped groups tag e)).Nodup := by
  rw [pushGrouped_keys]
  by_cases h : tag ∈ groupKeys groups
  · rw [if_pos h]
    exact hnd
  · rw [if_neg h]
    simp [List.nodup_append, hnd, h]

theorem sizes_map_update (tag : String) (e : EndpointInfo) :
    ∀ groups : List (String × List EndpointInfo),
      (groupKeys groups).Nodup → groups.any (fun g => g.1 == tag) = true →
      groupSizes (groups.map (fun g =>
        if g.1 == tag then (g.1, g.2 ++ [e]) else g)) = groupSizes groups + 1
  | [], _, hany => by simp at hany
  | g :: gs, hnd, hany => by
    rw [groupKeys, List.map_cons, List.nodup_cons] at hnd
    by_cases hg : (g.1 == tag) = true
    · have htail : gs.map (fun g' => if g'.1 == tag then (g'.1, g'.2 ++ [e]) else g') = gs := by
        have hne : ∀ g' ∈ gs, ¬ (g'.1 == tag) = true := by
          intro g' hg' hbe
          exact hnd.1 (List.mem_map.mpr ⟨g', hg', by rw [eq_of_beq hbe, eq_of_beq hg]⟩)
        calc gs.map (fun g' => if g'.1 == tag then (g'.1, g'.2 ++ [e]) else g')
            = gs.map id := List.map_congr_left (fun g' hg' => by rw [if_neg (hne g' hg')]; rfl)
          _ = gs := List.map_id gs
      simp only [List.map_cons, hg, if_true, htail, groupSizes, List.map_cons, List.sum_cons,
        List.length_append, List.length_singleton]
      omega
    · have hany' : gs.any (fun g' => g'.1 == tag) = true := by
        rcases List.any_eq_true.mp hany with ⟨g', hg', he⟩
        rcases List.mem_cons.mp hg' with rfl | hmem
        · exact absurd he hg
        · exact List.any_eq_true.mpr ⟨g', hmem, he⟩
      have ih := sizes_map_update tag e gs (by rw [groupKeys]; exact hnd.2) hany'
      simp only [List.map_cons]
      rw [if_neg hg]
      simp only [groupSizes, List.map_cons, List.sum_cons] at ih ⊢
      omega

theorem sizes_pushGrouped (groups : List (String × List EndpointInfo))
    (tag : String) (e : EndpointInfo) (hnd : (groupKeys groups).Nodup) :
    groupSizes (pushGrouped groups tag e) = groupSizes groups + 1 := by
  rw [pushGrouped]
  by_cases h : groups.any (fun g => g.1 == tag) = true
  · rw [if_pos h]
    exact sizes_map_update tag e groups hnd h
  · rw [if_neg h]
    simp [groupSizes, List.map_append, List.sum_append]

theorem groupsInv_pushGrouped (groups : List (String × List EndpointInfo))
    (tag : String) (e : EndpointInfo) (hinv : groupsInv groups)
    (htag : tag ∈ recordTags e) : groupsInv (pushGrouped groups tag e) := by
  rw [pushGrouped]
  by_cases h : groups.any (fun g => g.1 == tag) = true
  · rw [if_pos h]
    intro p hp x hx
    rcases List.mem_map.mp hp with ⟨g, hg, rfl⟩
    by_cases hge : (g.1 == tag) = true
    · simp only [hge, if_true] at hx ⊢
      rcases List.mem_append.mp hx with hx | hx
      · exact hinv g hg x hx
      · rcases List.mem_singleton.mp hx with rfl
        rw [eq_of_beq hge]
        exact htag
    · simp only [hge, if_false] at hx ⊢
      exact hinv g hg x hx
  · rw [if_neg h]
    intro p hp x hx
    rcases List.mem_append.mp hp with hp | hp
    · exact hinv p hp x hx
    · rcases List.mem_singleton.mp hp with rfl
      rcases List.mem_singleton.mp hx with rfl
      exact htag

theorem foldl_pushGrouped_props (e : EndpointInfo) :
    ∀ (ts : List String) (groups : List (String × List EndpointInfo)),
      ((groupKeys groups).Nodup →
        (groupKeys (ts.foldl (fun gs tag => pushGrouped gs tag e) groups)).Nodup ∧
        groupSizes (ts.foldl (fun gs tag => pushGrouped gs tag e) groups) =
          groupSizes groups + ts.length) ∧
      (∀ t, t ∈ groupKeys (ts.foldl (fun gs tag => pushGrouped gs tag e) groups) ↔
        t ∈ groupKeys groups ∨ t ∈ ts) ∧
      ((∀ tag ∈ ts, tag ∈ recordTags e) → groupsInv groups →
        groupsInv (ts.foldl (fun gs tag => pushGrouped gs tag e) groups))
  | [], groups => by
    refine ⟨fun hnd => ⟨hnd, by simp⟩, fun t => by simp, fun _ hinv => hinv⟩
  | tag :: ts, groups => by
    refine ⟨?_, ?_, ?_⟩
    · intro hnd
      have h1 := nodup_groupKeys_pushGrouped groups tag e hnd
      obtain ⟨hnd', hsz⟩ := (foldl_pushGrouped_props e ts (pushGrouped groups tag e)).1 h1
      refine ⟨hnd', ?_⟩
      rw [List.foldl_cons, hsz, sizes_pushGrouped groups tag e hnd, List.length_cons]
      omega
    · intro t
      rw [List.foldl_cons, (foldl_pushGrouped_props e ts (pushGrouped groups tag e)).2.1 t,
        mem_groupKeys_pushGrouped, List.mem_cons]
      tauto
    · intro hts hinv
      rw [List.foldl_cons]
      exact (foldl_pushGrouped_props e ts (pushGrouped groups tag e)).2.2
        (fun tag' h' => hts tag' (List.mem_cons_of_mem _ h'))
        (groupsInv_pushGrouped groups tag e hinv (hts tag (List.mem_cons_self _ _)))

theorem groupByTag_fold_props :
    ∀ (endpoints : List EndpointInfo) (groups : List (String × List EndpointInfo)),
      ((groupKeys groups).Nodup →
        (groupKeys (endpoints.foldl (fun groups endpoint =>
            (recordTags endpoint).foldl (fun gs tag => pushGrouped gs tag endpoint) groups)
          groups)).Nodup ∧
        groupSizes (endpoints.foldl (fun groups endpoint =>
            (recordTags endpoint).foldl (fun gs tag => pushGrouped gs tag endpoint) groups)
          groups) =
          groupSizes groups + (endpoints.map (fun e => (recordTags e).length)).sum) ∧
      (∀ t, t ∈ groupKeys (endpoints.foldl (fun groups endpoint =>
            (recordTags endpoint).foldl (fun gs tag => pushGrouped gs tag endpoint) groups)
          groups) ↔
        t ∈ groupKeys groups ∨ ∃ e ∈ endpoints, t ∈ recordTags e) ∧
      (groupsInv groups → groupsInv (endpoints.foldl (fun groups endpoint =>
          (recordTags endpoint).foldl (fun gs tag => pushGrouped gs tag endpoint) groups)
        groups))
  | [], groups => by
    refine ⟨fun hnd => ⟨hnd, by simp⟩, fun t => by simp, fun hinv => hinv⟩
  | e :: es, groups => by
    refine ⟨?_, ?_, ?_⟩
    · intro hnd
      obtain ⟨hnd1, hsz1⟩ := (foldl_pushGrouped_props e (recordTags e) groups).1 hnd
      obtain ⟨hnd2, hsz2⟩ := (groupByTag_fold_props es _).1 hnd1
      refine ⟨hnd2, ?_⟩
      rw [List.foldl_cons, hsz2, hsz1, List.map_cons, List.sum_cons]
      omega
    · intro t
      rw [List.foldl_cons, (groupByTag_fold_props es _).2.1 t,
        (foldl_pushGrouped_props e (recordTags e) groups).2.1 t]
      simp only [List.mem_cons]
      constructor
      · rintro ((h | h) | ⟨e', he', ht⟩)
        · exact Or.inl h
        · exact Or.inr ⟨e, Or.inl rfl, h⟩
        · exact Or.inr ⟨e', Or.inr he', ht⟩
      · rintro (h | ⟨e', (rfl | he'), ht⟩)
        · exact Or.inl (Or.inl h)
        · exact Or.inl (Or.inr ht)
        · exact Or.inr ⟨e', he', ht⟩
    · intro hinv
      rw [List.foldl_cons]
      exact (groupByTag_fold_props es _).2.2
        ((foldl_pushGrouped_props e (recordTags e) groups).2.2 (fun _ h => h) hinv)

/-- Membership in the group keys a record is filed under. -/
theorem mem_recordTags (e : EndpointInfo) (t : String) :
    t ∈ recordTags e ↔
      (t ∈ e.tags.getD [] ∨ (t = "Untagged" ∧ e.tags.getD [] = [])) := by
  cases ht : e.tags with
  | none => simp [recordTags, ht]
  | some ts =>
    cases ts with
    | nil => simp [recordTags, ht]
    | cons a l => simp [recordTags, ht]

/-- C3 amended: the tag headings rendered by `formatEndpointsList` are a
strictly sorted (hence duplicate-free) list whose members are exactly the
tags occurring in the records plus the synthetic `"Untagged"` exactly when
some record has no tags — but `"Untagged"` is sorted together with the real
tags rather than necessarily appearing as a trailing section; and every
record filed under a group was filed there from its own tag list (an
untagged record only under `"Untagged"`). -/
theorem formatEndpointsList_headings (endpoints : List EndpointInfo) :
    List.Sorted (· < ·) (sortedTagsOf endpoints) ∧
    (∀ t, t ∈ sortedTagsOf endpoints ↔
      ((∃ e ∈ endpoints, t ∈ e.tags.getD []) ∨
        (t = "Untagged" ∧ ∃ e ∈ endpoints, e.tags.getD [] = []))) ∧
    (∀ p ∈ groupByTag endpoints, ∀ e ∈ p.2, p.1 ∈ recordTags e) := by
  have hkeys := groupByTag_fold_props endpoints []
  have hnil : (groupKeys ([] : List (String × List EndpointInfo))).Nodup := by
    simp [groupKeys]
  have hnd : (groupKeys (groupByTag endpoints)).Nodup := by
    rw [groupByTag]
    exact (hkeys.1 hnil).1
  have hperm : List.Perm (sortedTagsOf endpoints) (groupKeys (groupByTag endpoints)) :=
    List.perm_insertionSort strLe _
  refine ⟨?_, ?_, ?_⟩
  · exact sorted_lt_of_sorted_strLe (List.sorted_insertionSort strLe _)
      (hperm.symm.nodup hnd)
  · intro t
    rw [hperm.mem_iff, groupByTag, hkeys.2.1 t]
    constructor
    · rintro (h | ⟨e, he, ht⟩)
      · exact absurd h (by simp [groupKeys])
      · rcases (mem_recordTags e t).mp ht with h' | ⟨rfl, h'⟩
        · exact Or.inl ⟨e, he, h'⟩
        · exact Or.inr ⟨rfl, e, he, h'⟩
    · rintro (⟨e, he, ht⟩ | ⟨rfl, e, he, hd⟩)
      · exact Or.inr ⟨e, he, (mem_recordTags e t).mpr (Or.inl ht)⟩
      · exact Or.inr ⟨e, he, (mem_recordTags e "Untagged").mpr (Or.inr ⟨rfl, hd⟩)⟩
  · intro p hp
    rw [groupByTag] at hp
    exact hkeys.2.2 (fun q hq => absurd hq (List.not_mem_nil q)) p hp

/-- A record tagged `Zebra`. -/
def exRecZebra : EndpointInfo :=
  { method := "GET", path := "/z", summary := none, description := none,
    tags := some ["Zebra"], requiresAuth := false, operationId := none }

/-- A record with no tags. -/
def exRecUntagged : EndpointInfo :=
  { method := "GET", path := "/u", summary := none, description := none,
    tags := none, requiresAuth := false, operationId := none }

/-- C3 witness: the untagged record of the example list produces an
`Untagged` heading. -/
theorem formatEndpointsList_headings_witness :
    "Untagged" ∈ sortedTagsOf [exRecZebra, exRecUntagged] :=
  ((formatEndpointsList_headings [exRecZebra, exRecUntagged]).2.1 "Untagged").mpr
    (Or.inr ⟨rfl, exRecUntagged, by decide, by decide⟩)

/-- C3 counterexample: with one record tagged `Zebra` and one untagged
record, the rendered heading sequence is `Untagged` then `Zebra` — the
`Untagged` section is NOT trailing, refuting the claimed heading sequence
`sorted tags ++ [Untagged]`. -/
theorem formatEndpointsList_headings_counterexample :
    headingLinesOf (formatEndpointsList [exRecZebra, exRecUntagged]) =
      ["Untagged", "Zebra"] ∧
    headingLinesOf (formatEndpointsList [exRecZebra, exRecUntagged]) ≠
      ["Zebra", "Untagged"] := by decide

/-- C10 amended: one endpoint line is rendered per OCCURRENCE of a tag in a
record's tag list (a record listing the same tag twice is rendered twice
under that tag), so the total entry count across groups is the sum over
records of `max 1 (length of its tag list)`; the claimed formula with the
number of DISTINCT tags holds only for duplicate-free tag lists. -/
theorem formatEndpointsList_line_counts (endpoints : List EndpointInfo) :
    groupSizes (groupByTag endpoints) =
      (endpoints.map (fun e => max 1 (e.tags.getD []).length)).sum ∧
    ∀ e : EndpointInfo, (recordTags e).length = max 1 (e.tags.getD []).length := by
  have h2 : ∀ e : EndpointInfo, (recordTags e).length = max 1 (e.tags.getD []).length := by
    intro e
    cases ht : e.tags with
    | none => simp [recordTags, ht]
    | some ts =>
      cases ts with
      | nil => simp [recordTags, ht]
      | cons a l => simp [recordTags, ht]
  refine ⟨?_, h2⟩
  have hsz := ((groupByTag_fold_props endpoints []).1 (by simp [groupKeys])).2
  rw [groupByTag, hsz, List.map_congr_left (fun e _ => h2 e)]
  simp [groupSizes]

/-- A record whose tag list holds the same tag twice. -/
def exRecDupTag : EndpointInfo :=
  { method := "GET", path := "/x", summary := none, description := none,
    tags := some ["A", "A"], requiresAuth := false, operationId := none }

/-- C10 counterexample: a record with tag list `["A", "A"]` (one distinct
tag) is rendered twice under the `A` group, so the rendered endpoint-line
count is 2 where the claim's `max 1 (number of distinct tags)` formula
predicts 1. -/
theorem formatEndpointsList_line_counts_counterexample :
    dashLineCount (formatEndpointsList [exRecDupTag]) = 2 ∧
    ([exRecDupTag].map (fun e => max 1 (e.tags.getD []).dedup.length)).sum = 1 ∧
    dashLineCount (formatEndpointsList [exRecDupTag]) ≠
      ([exRecDupTag].map (fun e => max 1 (e.tags.getD []).dedup.length)).sum := by
  decide
